import Mathlib

/-!
Shallow embedding of the core of the Personal Knowledge Assistant repository
(`src/github_sync.py`, `src/knowledge_base.py`, `src/conversation_graph.py`,
`src/retriever.py`, `src/embeddings.py`), together with theorems settling the
specification claims about it.

Conventions of the embedding:
* Python dicts used as string maps become association lists
  (`List (String × String)`) with insertion-order-preserving update, matching
  CPython dict semantics.
* File-system / network effects are made explicit: a sync call receives the
  outcome of the clone/pull (`FetchResult`), the content hash function is a
  parameter, and the persisted tracking file is threaded as a value.
* Opaque external services (the vector-similarity search and the language
  model) are oracles passed as function arguments, so "the code does not call
  the service" is expressed as independence of the result from the oracle.
* Python truthiness on strings (`if not s`) is modelled explicitly: both the
  absent value and the empty string count as falsy.
-/

namespace PKA

/-! ### Association-list string maps (Python dict) -/

/-- Look up a key in an association list (Python `d[k]` / `k in d`). -/
def getVal (m : List (String × String)) (k : String) : Option String :=
  match m with
  | [] => none
  | (k', v) :: rest => if k' = k then some v else getVal rest k

/-- Python dict assignment `d[k] = v`: update in place if the key is present,
otherwise append (CPython preserves insertion order). -/
def setKey (m : List (String × String)) (k v : String) : List (String × String) :=
  match m with
  | [] => [(k, v)]
  | (k', v') :: rest => if k' = k then (k, v) :: rest else (k', v') :: setKey rest k v

/-! ### Corpus synchronizer (`src/github_sync.py`) -/

/-- The persisted tracking JSON of `GitHubSyncManager`
(`_load_tracking_data` in `src/github_sync.py`):
`{repo_url, last_commit, last_sync, files: {relative_path: md5}}`. -/
structure TrackingData where
  repo_url : String
  last_commit : Option String
  last_sync : Option String
  files : List (String × String)
  deriving Repr, DecidableEq

/-- Outcome of the clone/pull step of `sync_repository`: either the
`GitCommandError` branch, or a successful fetch yielding the repository head
commit and the enumerated markdown files as (relative path, content) pairs. -/
inductive FetchResult where
  | fetchFailure
  | fetchSuccess (commit : String) (files : List (String × String))
  deriving Repr, DecidableEq

/-- The per-file loop of `sync_repository` (lines 136-148 of
`src/github_sync.py`): walk the markdown files in order; classify each as new
(path absent from `tracking_data["files"]`), changed (present with a different
hash) or unchanged; always write the fresh hash back into the tracking map.
Returns (new paths, changed paths, updated paths) in file order plus the final
tracking map. -/
def syncFiles (hash : String → String) (tracked : List (String × String)) :
    List (String × String) → (List String × List String × List String) × List (String × String)
  | [] => (([], [], []), tracked)
  | (path, content) :: rest =>
      let fileHash := hash content
      let status := getVal tracked path
      let tracked' := setKey tracked path fileHash
      let ⟨(n, c, u), t'⟩ := syncFiles hash tracked' rest
      match status with
      | none => ((path :: n, c, path :: u), t')
      | some oldHash =>
          if oldHash ≠ fileHash then ((n, path :: c, path :: u), t')
          else ((n, c, u), t')

/-- `GitHubSyncManager.sync_repository` (`src/github_sync.py`):
on clone/pull failure return `(0, 0, [])` leaving the tracking data alone;
if the head commit equals `last_commit` return `(0, 0, [])` without touching
any file; otherwise hash and classify every markdown file, update the tracking
map, record the commit and sync timestamp, and persist.  The returned
`TrackingData` is the tracking file as persisted on disk after the call. -/
def sync_repository (hash : String → String) (now : String) (t : TrackingData)
    (fetch : FetchResult) : (Nat × Nat × List String) × TrackingData :=
  match fetch with
  | .fetchFailure => ((0, 0, []), t)
  | .fetchSuccess commit files =>
      if t.last_commit = some commit then ((0, 0, []), t)
      else
        let ⟨(n, c, u), files'⟩ := syncFiles hash t.files files
        ((n.length, c.length, u),
         { t with files := files', last_commit := some commit, last_sync := some now })

/-! ### Knowledge-base sync wrapper (`src/knowledge_base.py`) -/

/-- Status classification done inside the file loop of
`sync_github_knowledge_base` (`src/knowledge_base.py`, lines 62-70): it
re-reads the tracking JSON from disk and tags a path `new` when absent from
its `files` map, `updated` when present.  Crucially this runs after
`sync_repository` has already written the fresh hashes to that file. -/
def fileStatus (trackedFiles : List (String × String)) (path : String) : String :=
  match getVal trackedFiles path with
  | none => "new"
  | some _ => "updated"

/-- `sync_github_knowledge_base` (`src/knowledge_base.py`): run
`sync_repository`, then for each reported new/changed file compute its
`new`/`updated` status against the tracking file as it exists on disk at that
point (which, whenever the reported list is non-empty, is the tracking data
`sync_repository` just persisted).  Returns
((new count, changed count, [(path, status)]), tracking data on disk). -/
def sync_github_knowledge_base (hash : String → String) (now : String)
    (t : TrackingData) (fetch : FetchResult) :
    (Nat × Nat × List (String × String)) × TrackingData :=
  let r := sync_repository hash now t fetch
  let updated := r.1.2.2
  let tDisk := r.2
  ((r.1.1, r.1.2.1, updated.map (fun p => (p, fileStatus tDisk.files p))), tDisk)

/-! ### Corpus index manager (`src/embeddings.py`) -/

/-- A stored chunk of the Chroma vector store: its id, its `source` metadata
and its text content. -/
structure Chunk where
  id : String
  source : String
  content : String
  deriving Repr, DecidableEq

/-- A metadata entry as produced by `get_all_documents_metadata`. -/
structure ChunkMeta where
  id : String
  source : String
  content_preview : String
  deriving Repr, DecidableEq

/-- `content[:100] + "..." if len(content) > 100 else content`
(`src/embeddings.py`, line 121). -/
def contentPreview (s : String) : String :=
  if s.length > 100 then s.take 100 ++ "..." else s

/-- `get_all_documents_metadata` (`src/embeddings.py`): `[]` when the store
cannot be loaded, otherwise one metadata entry (id, source, content preview)
per stored chunk.  The store is `none` when unavailable. -/
def get_all_documents_metadata : Option (List Chunk) → List ChunkMeta
  | none => []
  | some cs => cs.map (fun c => ⟨c.id, c.source, contentPreview c.content⟩)

/-- `delete_documents_by_source` (`src/embeddings.py`): `(False, 0)` when the
store cannot be loaded; otherwise collect the ids of all chunks whose
`source` metadata equals the given path, delete those ids when the list is
non-empty and return `(True, count)`, else `(False, 0)`.  Second component is
the store after the call. -/
def delete_documents_by_source (store : Option (List Chunk)) (sourcePath : String) :
    (Bool × Nat) × Option (List Chunk) :=
  match store with
  | none => ((false, 0), none)
  | some cs =>
      let ids := (cs.filter (fun c => c.source == sourcePath)).map (fun c => c.id)
      if ids.isEmpty then ((false, 0), some cs)
      else ((true, ids.length), some (cs.filter (fun c => !(ids.contains c.id))))

/-! ### Context retriever (`src/retriever.py`) -/

/-- A document as returned by the vector-similarity search. -/
structure Doc where
  page_content : String
  source : String
  deriving Repr, DecidableEq

/-- Outcome of `vector_store.similarity_search`: either it raises, or it
returns the ranked result list (possibly empty). -/
inductive SearchResult where
  | searchError
  | results (docs : List Doc)
  deriving Repr, DecidableEq

/-- `KnowledgeRetriever.retrieve` (`src/retriever.py`): call the similarity
search; on an exception log it and return `[]`, otherwise return the ranked
documents unchanged. -/
def retrieve (search : String → Nat → SearchResult) (query : String) (top_k : Nat) :
    List Doc :=
  match search query top_k with
  | .searchError => []
  | .results docs => docs

/-- `KnowledgeRetriever.get_relevant_context` (`src/retriever.py`):
`"\n\n".join(doc.page_content for doc in self.retrieve(query, top_k))`. -/
def get_relevant_context (search : String → Nat → SearchResult) (query : String)
    (top_k : Nat) : String :=
  String.intercalate "\n\n" ((retrieve search query top_k).map Doc.page_content)

/-! ### Conversation state machine (`src/conversation_graph.py`) -/

/-- Message roles: LangChain `HumanMessage` / `AIMessage`, plus the system
role that `prune_messages` checks for via `msg.type == "system"`. -/
inductive Role where
  | system
  | human
  | ai
  deriving Repr, DecidableEq

/-- A LangChain chat message: a role and a text content. -/
structure Msg where
  role : Role
  content : String
  deriving Repr, DecidableEq

/-- The `ConversationState` TypedDict of `src/conversation_graph.py`. -/
structure ConvState where
  messages : List Msg
  context : Option String
  current_question : Option String
  completed : Bool
  memory : List (String × String)
  deriving Repr, DecidableEq

/-- Whether the first character list is a leading segment of the second. -/
def isPrefixChars : List Char → List Char → Bool
  | [], _ => true
  | _ :: _, [] => false
  | p :: ps, c :: cs => p == c && isPrefixChars ps cs

/-- Whether the pattern occurs as a contiguous segment of the text. -/
def containsSub (pat : List Char) : List Char → Bool
  | [] => isPrefixChars pat []
  | c :: rest => isPrefixChars pat (c :: rest) || containsSub pat rest

/-- Python `pat in s` / `re.search` for a fixed literal pattern: substring
occurrence. -/
def containsStr (s pat : String) : Bool :=
  containsSub pat.data s.data

/-- Character-wise lowercasing of a string (`str.lower()` for ASCII). -/
def lowerStr (s : String) : String :=
  ⟨s.data.map Char.toLower⟩

/-- The personal-information query pattern of `retrieve_context`
(`src/conversation_graph.py`, line 80):
`re.search(r"(what'?s? my name|who am i)", question, re.IGNORECASE)`.
The alternation with its two independently optional characters expands to the
four `what … my name` literals plus `who am i`; `re.IGNORECASE` with an ASCII
pattern is search over the lowercased question. -/
def personalInfoMatch (q : String) : Bool :=
  let lq := lowerStr q
  containsStr lq "what my name" || containsStr lq "what\x27 my name" ||
  containsStr lq "whats my name" || containsStr lq "what\x27s my name" ||
  containsStr lq "who am i"

/-- The conversation-ending phrase check of `should_end`
(`src/conversation_graph.py`, lines 172-174): any of the four farewell
phrases occurring in the lowercased message content. -/
def closingPhrase (content : String) : Bool :=
  let lc := lowerStr content
  containsStr lc "goodbye" || containsStr lc "farewell" ||
  containsStr lc "have a nice day" || containsStr lc "have a great day"

/-- Outcome of the structured-extraction step of `extract_personal_info`:
either no well-formed JSON block was found in the reply (or `json.loads` /
the model call raised), or it parsed to a `name` and an `other_info` field,
each a JSON string or `null` (absent keys behave as `null` via `.get`). -/
inductive ExtractOutcome where
  | parseFailure
  | parsed (name : Option String) (other_info : Option String)
  deriving Repr, DecidableEq

/-- `extract_personal_info` (`src/conversation_graph.py`, lines 18-62):
on parse failure return the memory unchanged; otherwise overwrite
`memory["name"]` when the extracted name is truthy (non-null, non-empty) and
not the literal string `"null"`, then likewise for `memory["other_info"]`. -/
def extract_personal_info (memory : List (String × String)) (outcome : ExtractOutcome) :
    List (String × String) :=
  match outcome with
  | .parseFailure => memory
  | .parsed nm oi =>
      let m1 := match nm with
        | some s => if s != "" && s != "null" then setKey memory "name" s else memory
        | none => memory
      match oi with
      | some s => if s != "" && s != "null" then setKey m1 "other_info" s else m1
      | none => m1

/-- The opaque external services of one turn: the RAG call made by
`retrieve_context` (`rag_processor.answer_question(question)["context"]`),
the answer completion of `generate_response`, and the parsed outcome of the
extraction completion for a given question. -/
structure Oracles where
  ragContext : String → String
  llmReply : String → String
  extraction : String → ExtractOutcome

/-- The `retrieve` node (`retrieve_context`, `src/conversation_graph.py`,
lines 67-99): a falsy (absent or empty) pending question completes the turn
immediately; a personal-information question with a stored name short-circuits
to a sentence synthesized from memory; otherwise the RAG call supplies the
context. -/
def retrieve_context (o : Oracles) (s : ConvState) : ConvState :=
  match s.current_question with
  | none => { s with completed := true }
  | some q =>
      if q == "" then { s with completed := true }
      else if personalInfoMatch q && (getVal s.memory "name").isSome then
        { s with context := some ("Personal information: The user\x27s name is "
            ++ ((getVal s.memory "name").getD "") ++ ".") }
      else
        { s with context := some (o.ragContext q) }

/-- `'You' if isinstance(msg, AIMessage) else 'Human'` plus the content
(`generate_response`, line 108). -/
def renderMsg (m : Msg) : String :=
  (if m.role == Role.ai then "You" else "Human") ++ ": " ++ m.content

/-- Python `l[-n:]`: the suffix of the last `n` elements. -/
def lastN (n : Nat) (l : List α) : List α :=
  l.drop (l.length - n)

/-- The memory rendering of `generate_response` (lines 117-121). -/
def memoryContext (memory : List (String × String)) : String :=
  if memory.isEmpty then ""
  else "Personal information:\n" ++
    String.join (memory.map (fun kv => "- User\x27s " ++ kv.1 ++ ": " ++ kv.2 ++ "\n"))

/-- The answer prompt of `generate_response` (lines 123-143). -/
def buildPrompt (history context memCtx question : String) : String :=
  "You are a friendly, conversational assistant named Personal Knowledge Assistant. \n"
  ++ "Respond in a natural, warm tone as if chatting with a friend.\n\n"
  ++ "Conversation History:\n" ++ history ++ "\n\n"
  ++ "Context from documents:\n" ++ context ++ "\n\n"
  ++ memCtx ++ "\n\n"
  ++ "Question: " ++ question ++ "\n\n"
  ++ "Please answer the question using both the retrieved context AND conversation history. \n"
  ++ "Remember personal information like names when shared, but don\x27t explicitly mention how you know this information.\n"
  ++ "Keep your tone warm and conversational, not academic or formal.\n"
  ++ "If you don\x27t have enough information, say so in a friendly way.\n"
  ++ "Never use hashtags in your responses.\n"
  ++ "Never mention \"previous chat\" or \"as you mentioned earlier\" in your responses. Also you don\x27t have to always start with Hey \"name\".\n\n"
  ++ "Answer:"

/-- The `generate` node (`generate_response`, `src/conversation_graph.py`,
lines 101-158): a falsy pending question or falsy context completes the turn
without generating; otherwise run memory extraction, build the prompt from the
last five messages, the context, the rendered memory and the question, invoke
the model once, append its reply as an assistant message, clear the pending
question and mark the turn complete. -/
def generate_response (o : Oracles) (s : ConvState) : ConvState :=
  match s.current_question, s.context with
  | some q, some ctx =>
      if q == "" || ctx == "" then { s with completed := true }
      else
        let history := String.intercalate "\n" ((lastN 5 s.messages).map renderMsg)
        let memory := extract_personal_info s.memory (o.extraction q)
        let reply := o.llmReply (buildPrompt history ctx (memoryContext memory) q)
        { s with messages := s.messages ++ [⟨Role.ai, reply⟩],
                 current_question := none,
                 memory := memory,
                 completed := true }
  | _, _ => { s with completed := true }

/-- `should_end` (`src/conversation_graph.py`, lines 160-195): `"end"` when
the completion flag is set or the last message is an assistant message
containing a closing phrase; `"continue"` otherwise (the remaining branches
of the source all fall through to `"continue"`). -/
def should_end (s : ConvState) : String :=
  if s.completed then "end"
  else
    match s.messages.getLast? with
    | some m => if m.role == Role.ai && closingPhrase m.content then "end" else "continue"
    | none => "continue"

/-- One pass of the compiled graph: the unconditional edge `retrieve →
generate`. -/
def stepTurn (o : Oracles) (s : ConvState) : ConvState :=
  generate_response o (retrieve_context o s)

/-- The compiled LangGraph executor: from the entry point `retrieve`, run
`retrieve → generate`, then follow the conditional edge — `END` when
`should_end` says `"end"`, back to `retrieve` otherwise — within the given
recursion budget.  Also counts the visits to the `retrieve` node. -/
def runGraph (o : Oracles) : Nat → ConvState → ConvState × Nat
  | 0, s => (s, 0)
  | n + 1, s =>
      let s' := stepTurn o s
      if should_end s' == "end" then (s', 1)
      else
        let r := runGraph o n s'
        (r.1, r.2 + 1)

/-- `prune_messages` (`src/conversation_graph.py`, lines 251-263): lists not
longer than the bound are returned unchanged; otherwise a leading system
message is preserved and the most recent `maxMessages` of the remainder are
kept. -/
def prune_messages (messages : List Msg) (maxMessages : Nat) : List Msg :=
  if messages.length ≤ maxMessages then messages
  else
    match messages with
    | [] => []
    | m :: rest =>
        if m.role == Role.system then m :: lastN maxMessages rest
        else lastN maxMessages (m :: rest)

/-- `ConversationAgent.process_message` (`src/conversation_graph.py`,
lines 278-298): append the user message, set it as the pending question,
clear the completion flag, prune to the 10 most recent messages, run the
graph (LangGraph's default recursion budget is 25), keep the resulting state,
and return the content of the last stored message. -/
def process_message (o : Oracles) (s : ConvState) (message : String) :
    String × ConvState :=
  let s1 : ConvState :=
    { s with
      messages := prune_messages (s.messages ++ [⟨Role.human, message⟩]) 10,
      current_question := some message,
      completed := false }
  let result := (runGraph o 25 s1).1
  (((result.messages.getLast?).map Msg.content).getD "", result)

/-- The initial state of `ConversationAgent.__init__`. -/
def initState : ConvState :=
  { messages := [], context := none, current_question := none,
    completed := true, memory := [] }

/-- A sequence of `process_message` calls on one agent. -/
def runTurns (o : Oracles) (inputs : List String) (s : ConvState) : ConvState :=
  match inputs with
  | [] => s
  | msg :: rest => runTurns o rest (process_message o s msg).2

/-- A concrete oracle used by counterexamples and witnesses: the RAG call
always returns the context `"ctx"`, the model always replies `"reply"`, and
extraction never parses. -/
def oracleConst : Oracles :=
  { ragContext := fun _ => "ctx", llmReply := fun _ => "reply",
    extraction := fun _ => .parseFailure }

/-- A concrete oracle whose RAG call returns an empty context. -/
def oracleEmptyCtx : Oracles :=
  { ragContext := fun _ => "", llmReply := fun _ => "reply",
    extraction := fun _ => .parseFailure }

/-! ### Association-list lemmas -/

theorem getVal_setKey_self (m : List (String × String)) (k v : String) :
    getVal (setKey m k v) k = some v := by
  induction m with
  | nil => simp [setKey, getVal]
  | cons kv rest ih =>
      by_cases h : kv.1 = k
      · simp [setKey, h, getVal]
      · simp [setKey, h, getVal, ih]

theorem getVal_setKey_ne (m : List (String × String)) (k' v k : String)
    (h : k' ≠ k) : getVal (setKey m k' v) k = getVal m k := by
  induction m with
  | nil => simp [setKey, getVal, h]
  | cons kv rest ih =>
      by_cases h1 : kv.1 = k'
      · simp [setKey, h1, getVal, h]
      · simp only [setKey, h1, if_neg, not_false_iff]
        by_cases h2 : kv.1 = k
        · simp [getVal, h2]
        · simp [getVal, h2, ih]

/-! ### Claims about the corpus synchronizer -/

/-- After a successful fetch, `sync_repository` always leaves `last_commit`
equal to the head commit it saw (either it already was, or it is recorded). -/
theorem sync_repository_last_commit (hash : String → String) (now : String)
    (t : TrackingData) (commit : String) (files : List (String × String)) :
    (sync_repository hash now t (.fetchSuccess commit files)).2.last_commit = some commit := by
  unfold sync_repository
  by_cases h : t.last_commit = some commit
  · simp [h]
  · simp [h]

/-- C1. Syncing at an already-recorded revision is a no-op: it reports
`(0, 0, [])`, returns the tracking data unchanged, its result does not depend
on the hash function (no file is re-hashed), and the knowledge-base wrapper
indexes nothing; consequently a second sync immediately after a successful
one at the same upstream commit reports `(0, 0, [])` with no tracker
mutation. -/
theorem sync_noop_at_recorded_commit (hash : String → String) (now : String)
    (t : TrackingData) (commit : String) (files : List (String × String))
    (h : t.last_commit = some commit) :
    sync_repository hash now t (.fetchSuccess commit files) = ((0, 0, []), t) ∧
    sync_github_knowledge_base hash now t (.fetchSuccess commit files) = ((0, 0, []), t) ∧
    (∀ (hash' : String → String) (now' : String) (files' : List (String × String))
       (t' : TrackingData),
       t' = (sync_repository hash' now' t (.fetchSuccess commit files')).2 →
       sync_repository hash now t' (.fetchSuccess commit files) = ((0, 0, []), t')) := by
  have hmain : sync_repository hash now t (.fetchSuccess commit files) = ((0, 0, []), t) := by
    unfold sync_repository
    simp [h]
  refine ⟨hmain, ?_, ?_⟩
  · unfold sync_github_knowledge_base
    rw [hmain]
    rfl
  · intro hash' now' files' t' ht'
    have hlast : t'.last_commit = some commit := by
      rw [ht']
      exact sync_repository_last_commit hash' now' t commit files'
    unfold sync_repository
    simp [hlast]

/-- Witness for C1 at a concrete tracker and fetch. -/
theorem sync_noop_at_recorded_commit_witness :
    sync_repository (fun s => s) "2024-01-01" ⟨"u", some "c1", some "t0", [("a.md", "h")]⟩
      (.fetchSuccess "c1" [("a.md", "x")]) =
      ((0, 0, []), ⟨"u", some "c1", some "t0", [("a.md", "h")]⟩) :=
  (sync_noop_at_recorded_commit (fun s => s) "2024-01-01"
    ⟨"u", some "c1", some "t0", [("a.md", "h")]⟩ "c1" [("a.md", "x")] rfl).1

/-- C2. A clone/pull failure aborts the sync: `sync_repository` reports
`(0, 0, [])` and the persisted tracking data — path→hash map, `last_commit`
and `last_sync` alike — is exactly what it was before the call. -/
theorem sync_fetch_failure_atomic (hash : String → String) (now : String)
    (t : TrackingData) :
    sync_repository hash now t .fetchFailure = ((0, 0, []), t) ∧
    (sync_repository hash now t .fetchFailure).2.files = t.files ∧
    (sync_repository hash now t .fetchFailure).2.last_commit = t.last_commit ∧
    (sync_repository hash now t .fetchFailure).2.last_sync = t.last_sync :=
  ⟨rfl, rfl, rfl, rfl⟩

/-- C7 (code bug). Concrete failing input: an empty tracker and a fetch that
brings one brand-new markdown file `a.md`.  The path is absent from the
fingerprint tracker before the sync begins, so the claim (and the dead
`status = "new"` branch of the code itself) requires the tag `new`; but the
status is computed from the tracking file after `sync_repository` has already
stored the fresh hash, so the code reports `updated`. -/
theorem knowledge_base_new_file_tagged_updated :
    getVal (TrackingData.mk "u" none none []).files "a.md" = none ∧
    (sync_github_knowledge_base (fun s => s) "2024-01-01"
        (TrackingData.mk "u" none none []) (.fetchSuccess "c1" [("a.md", "hello")])).1 =
      (1, 0, [("a.md", "updated")]) := by
  constructor
  · rfl
  · rfl

/-! ### Claims about the corpus index manager -/

theorem length_filter_add_length_filter_not (l : List Chunk) (p : Chunk → Bool) :
    (l.filter p).length + (l.filter (fun c => !(p c))).length = l.length := by
  induction l with
  | nil => rfl
  | cons c rest ih =>
      cases h : p c
      · simp only [List.filter_cons, h, Bool.not_false, if_neg, Bool.false_eq_true,
          not_false_iff, if_pos, List.length_cons]
        omega
      · simp only [List.filter_cons, h, Bool.not_true, if_pos, Bool.false_eq_true,
          not_false_iff, if_neg, List.length_cons]
        omega

/-- When chunk ids are unique (as Chroma guarantees), deleting by the ids
collected from a source-metadata query hits a chunk exactly when its source
matches. -/
theorem contains_collected_ids (cs : List Chunk) (p : String)
    (hnodup : (cs.map Chunk.id).Nodup) (c : Chunk) (hc : c ∈ cs) :
    ((cs.filter (fun b => b.source == p)).map (fun b => b.id)).contains c.id
      = (c.source == p) := by
  cases hsrc : (c.source == p) with
  | true =>
      have hmemf : c ∈ cs.filter (fun b => b.source == p) :=
        List.mem_filter.mpr ⟨hc, hsrc⟩
      have hmem : c.id ∈ (cs.filter (fun b => b.source == p)).map (fun b => b.id) :=
        List.mem_map_of_mem _ hmemf
      simpa using hmem
  | false =>
      simp only [List.contains, List.elem_eq_mem, decide_eq_false_iff_not]
      intro hmem
      obtain ⟨b, hbf, hbid⟩ := List.mem_map.mp hmem
      obtain ⟨hbcs, hbsrc⟩ := List.mem_filter.mp hbf
      have hbc : b = c := List.inj_on_of_nodup_map hnodup hbcs hc hbid
      rw [hbc] at hbsrc
      rw [hbsrc] at hsrc
      exact Bool.true_eq_false.mp hsrc

/-- C8. On an available store with unique chunk ids, `delete_documents_by_source`
removes exactly the chunks whose `source` metadata equals the given path and
returns their count; afterwards the metadata listing has no entry with that
source and the total chunk count has dropped by exactly the returned count.
On an unavailable store it reports `(false, 0)` (a failure value, not an
exception). -/
theorem delete_by_source_exact (cs : List Chunk) (p : String)
    (hnodup : (cs.map Chunk.id).Nodup) :
    (delete_documents_by_source (some cs) p).1.2 =
        (cs.filter (fun c => c.source == p)).length ∧
    (delete_documents_by_source (some cs) p).2 =
        some (cs.filter (fun c => !(c.source == p))) ∧
    (get_all_documents_metadata (delete_documents_by_source (some cs) p).2).filter
        (fun m => m.source == p) = [] ∧
    (∀ cs', (delete_documents_by_source (some cs) p).2 = some cs' →
        cs'.length + (delete_documents_by_source (some cs) p).1.2 = cs.length) ∧
    delete_documents_by_source none p = ((false, 0), none) := by
  have hstore : (delete_documents_by_source (some cs) p).2 =
      some (cs.filter (fun c => !(c.source == p))) := by
    unfold delete_documents_by_source
    by_cases hempty :
        ((cs.filter (fun c => c.source == p)).map (fun c => c.id)).isEmpty = true
    · simp only [hempty, if_pos]
      have hnone : ∀ c ∈ cs, ¬(c.source == p) = true := by
        intro c hcmem hcsrc
        have : cs.filter (fun c => c.source == p) = [] := by
          have := List.isEmpty_iff.mp hempty
          exact List.map_eq_nil_iff.mp this
        have := List.filter_eq_nil_iff.mp this c hcmem
        exact this hcsrc
      have : cs.filter (fun c => !(c.source == p)) = cs := by
        apply List.filter_eq_self.mpr
        intro c hcmem
        simp only [Bool.not_eq_true']
        exact Bool.not_eq_true _ |>.mp (hnone c hcmem)
      rw [this]
    · simp only [hempty, if_neg, Bool.false_eq_true, not_false_iff]
      have : cs.filter
          (fun c => !(((cs.filter (fun b => b.source == p)).map (fun b => b.id)).contains c.id))
          = cs.filter (fun c => !(c.source == p)) := by
        apply List.filter_congr
        intro c hcmem
        rw [contains_collected_ids cs p hnodup c hcmem]
      exact congrArg some this
  have hcount : (delete_documents_by_source (some cs) p).1.2 =
      (cs.filter (fun c => c.source == p)).length := by
    unfold delete_documents_by_source
    by_cases hempty :
        ((cs.filter (fun c => c.source == p)).map (fun c => c.id)).isEmpty = true
    · simp only [hempty, if_pos]
      have : cs.filter (fun c => c.source == p) = [] :=
        List.map_eq_nil_iff.mp (List.isEmpty_iff.mp hempty)
      rw [this]
      rfl
    · simp only [hempty, if_neg, Bool.false_eq_true, not_false_iff]
      simp [List.length_map]
  refine ⟨hcount, hstore, ?_, ?_, rfl⟩
  · rw [hstore]
    unfold get_all_documents_metadata
    apply List.filter_eq_nil_iff.mpr
    intro m hm
    obtain ⟨c, hcf, hcm⟩ := List.mem_map.mp hm
    obtain ⟨_, hcsrc⟩ := List.mem_filter.mp hcf
    rw [← hcm]
    simpa using hcsrc
  · intro cs' hcs'
    rw [hstore] at hcs'
    have hcs'' : cs' = cs.filter (fun c => !(c.source == p)) :=
      Option.some.inj hcs'.symm
    rw [hcs'', hcount, Nat.add_comm]
    exact length_filter_add_length_filter_not cs (fun c => c.source == p)

/-- Witness for C8 at a concrete two-chunk store. -/
theorem delete_by_source_exact_witness :
    (delete_documents_by_source
        (some [⟨"i1", "a.md", "x"⟩, ⟨"i2", "b.md", "y"⟩]) "a.md").1.2 = 1 ∧
    (delete_documents_by_source
        (some [⟨"i1", "a.md", "x"⟩, ⟨"i2", "b.md", "y"⟩]) "a.md").2 =
      some [⟨"i2", "b.md", "y"⟩] := by
  have h := delete_by_source_exact [⟨"i1", "a.md", "x"⟩, ⟨"i2", "b.md", "y"⟩] "a.md"
    (by decide)
  exact ⟨h.1, h.2.1⟩

/-! ### List helper lemmas for the conversation state machine -/

theorem getLast?_cons_ne_nil {α : Type} (a : α) (l : List α) (h : l ≠ []) :
    (a :: l).getLast? = l.getLast? := by
  cases l with
  | nil => exact absurd rfl h
  | cons b l' => exact List.getLast?_cons_cons

theorem getLast?_drop_of_ne_nil {α : Type} (k : Nat) (l : List α) (h : l.drop k ≠ []) :
    (l.drop k).getLast? = l.getLast? := by
  conv_rhs => rw [← List.take_append_drop k l]
  rw [List.getLast?_append]
  cases hd : (l.drop k).getLast? with
  | none => exact absurd (List.getLast?_eq_none_iff.mp hd) h
  | some a => rfl

theorem lastN_length {α : Type} (n : Nat) (l : List α) :
    (lastN n l).length = l.length - (l.length - n) := by
  simp [lastN]

theorem lastN_ne_nil {α : Type} (n : Nat) (l : List α) (hn : 1 ≤ n) (hl : 1 ≤ l.length) :
    lastN n l ≠ [] := by
  intro hnil
  have hlen := lastN_length n l
  rw [hnil] at hlen
  simp only [List.length_nil] at hlen
  omega

theorem mem_of_mem_lastN {α : Type} {n : Nat} {l : List α} {a : α}
    (h : a ∈ lastN n l) : a ∈ l :=
  (List.drop_sublist _ _).subset h

theorem getLast?_lastN {α : Type} (n : Nat) (l : List α) (h : lastN n l ≠ []) :
    (lastN n l).getLast? = l.getLast? :=
  getLast?_drop_of_ne_nil _ _ h

/-! ### Pruning lemmas -/

theorem prune_length_le (msgs : List Msg) : (prune_messages msgs 10).length ≤ 11 := by
  unfold prune_messages
  by_cases hlen : msgs.length ≤ 10
  · simp only [hlen, if_pos]
    omega
  · simp only [hlen, if_neg, not_false_iff]
    cases msgs with
    | nil => simp
    | cons m rest =>
        by_cases hsys : (m.role == Role.system) = true
        · simp only [hsys, if_pos, List.length_cons]
          have := lastN_length 10 rest
          omega
        · simp only [hsys, if_neg, Bool.false_eq_true, not_false_iff]
          have := lastN_length 10 (m :: rest)
          omega

theorem prune_length_le_of_no_system (msgs : List Msg)
    (h : ∀ m ∈ msgs, m.role ≠ Role.system) :
    (prune_messages msgs 10).length ≤ 10 := by
  unfold prune_messages
  by_cases hlen : msgs.length ≤ 10
  · simp only [hlen, if_pos]
  · simp only [hlen, if_neg, not_false_iff]
    cases msgs with
    | nil => simp
    | cons m rest =>
        have hm : m.role ≠ Role.system := h m (List.mem_cons_self m rest)
        have hsys : (m.role == Role.system) = false := by
          simp only [beq_eq_false_iff_ne, ne_eq]
          exact hm
        simp only [hsys, Bool.false_eq_true, if_neg, not_false_iff]
        have := lastN_length 10 (m :: rest)
        omega

theorem mem_of_mem_prune {msgs : List Msg} {a : Msg}
    (h : a ∈ prune_messages msgs 10) : a ∈ msgs := by
  unfold prune_messages at h
  by_cases hlen : msgs.length ≤ 10
  · simpa only [hlen, if_pos] using h
  · simp only [hlen, if_neg, not_false_iff] at h
    cases msgs with
    | nil => simp at h
    | cons m rest =>
        by_cases hsys : (m.role == Role.system) = true
        · simp only [hsys, if_pos, List.mem_cons] at h
          rcases h with h | h
          · exact h ▸ List.mem_cons_self m rest
          · exact List.mem_cons_of_mem m (mem_of_mem_lastN h)
        · simp only [hsys, Bool.false_eq_true, if_neg, not_false_iff] at h
          exact mem_of_mem_lastN h

theorem prune_getLast? (msgs : List Msg) (h : msgs ≠ []) :
    (prune_messages msgs 10).getLast? = msgs.getLast? := by
  unfold prune_messages
  by_cases hlen : msgs.length ≤ 10
  · simp only [hlen, if_pos]
  · simp only [hlen, if_neg, not_false_iff]
    cases msgs with
    | nil => exact absurd rfl h
    | cons m rest =>
        have hrestlen : 10 ≤ rest.length := by
          simp only [List.length_cons] at hlen
          omega
        have hrest : rest ≠ [] := by
          intro hr
          rw [hr] at hrestlen
          simp at hrestlen
        have hlast : lastN 10 rest ≠ [] :=
          lastN_ne_nil 10 rest (by omega) (by omega)
        by_cases hsys : (m.role == Role.system) = true
        · simp only [hsys, if_pos]
          rw [getLast?_cons_ne_nil _ _ hlast, getLast?_cons_ne_nil _ _ hrest]
          exact getLast?_lastN 10 rest hlast
        · simp only [hsys, Bool.false_eq_true, if_neg, not_false_iff]
          have hlast' : lastN 10 (m :: rest) ≠ [] :=
            lastN_ne_nil 10 (m :: rest) (by omega) (by simp)
          exact getLast?_lastN 10 (m :: rest) hlast'

/-! ### Graph execution lemmas -/

theorem generate_response_completed (o : Oracles) (s : ConvState) :
    (generate_response o s).completed = true := by
  obtain ⟨msgs, ctx, q, comp, mem⟩ := s
  cases q with
  | none => cases ctx <;> rfl
  | some qs =>
      cases ctx with
      | none => rfl
      | some cs =>
          by_cases h : (qs == "" || cs == "") = true
          · simp [generate_response, h]
          · simp [generate_response, h]

theorem should_end_of_completed (s : ConvState) (h : s.completed = true) :
    should_end s = "end" := by
  unfold should_end
  simp [h]

theorem stepTurn_completed (o : Oracles) (s : ConvState) :
    (stepTurn o s).completed = true :=
  generate_response_completed o (retrieve_context o s)

theorem runGraph_succ (o : Oracles) (n : Nat) (s : ConvState) :
    runGraph o (n + 1) s = (stepTurn o s, 1) := by
  have h : should_end (stepTurn o s) = "end" :=
    should_end_of_completed _ (stepTurn_completed o s)
  unfold runGraph
  simp [h]

theorem retrieve_context_messages (o : Oracles) (s : ConvState) :
    (retrieve_context o s).messages = s.messages := by
  obtain ⟨msgs, ctx, q, comp, mem⟩ := s
  cases q with
  | none => rfl
  | some qs =>
      by_cases h1 : (qs == "") = true
      · simp [retrieve_context, h1]
      · by_cases h2 : (personalInfoMatch qs &&
            (getVal mem "name").isSome) = true
        · simp [retrieve_context, h1, h2]
        · simp [retrieve_context, h1, h2]

theorem generate_response_messages (o : Oracles) (s : ConvState) :
    (generate_response o s).messages = s.messages ∨
    ∃ r, (generate_response o s).messages = s.messages ++ [⟨Role.ai, r⟩] := by
  obtain ⟨msgs, ctx, q, comp, mem⟩ := s
  cases q with
  | none => cases ctx <;> exact Or.inl rfl
  | some qs =>
      cases ctx with
      | none => exact Or.inl rfl
      | some cs =>
          by_cases h : (qs == "" || cs == "") = true
          · exact Or.inl (by simp [generate_response, h])
          · right
            refine ⟨o.llmReply (buildPrompt
                (String.intercalate "\n" ((lastN 5 msgs).map renderMsg)) cs
                (memoryContext (extract_personal_info mem (o.extraction qs))) qs), ?_⟩
            simp [generate_response, h]

theorem generate_response_clears_question_of_generated (o : Oracles) (s : ConvState)
    (h : (generate_response o s).messages ≠ s.messages) :
    (generate_response o s).current_question = none := by
  obtain ⟨msgs, ctx, q, comp, mem⟩ := s
  cases q with
  | none => cases ctx <;> exact absurd rfl h
  | some qs =>
      cases ctx with
      | none => exact absurd rfl h
      | some cs =>
          by_cases hqc : (qs == "" || cs == "") = true
          · exact absurd (by simp [generate_response, hqc]) h
          · simp [generate_response, hqc]

theorem runGraph_of_pos (o : Oracles) (fuel : Nat) (s : ConvState) (h : 1 ≤ fuel) :
    runGraph o fuel s = (stepTurn o s, 1) := by
  obtain ⟨n, rfl⟩ : ∃ n, fuel = n + 1 := ⟨fuel - 1, by omega⟩
  exact runGraph_succ o n s

theorem process_message_result (o : Oracles) (s : ConvState) (msg : String) :
    (process_message o s msg).2 =
      stepTurn o { s with
        messages := prune_messages (s.messages ++ [⟨Role.human, msg⟩]) 10,
        current_question := some msg,
        completed := false } := by
  show (runGraph o 25 { s with
      messages := prune_messages (s.messages ++ [⟨Role.human, msg⟩]) 10,
      current_question := some msg,
      completed := false }).1 = _
  rw [runGraph_of_pos o 25 _ (by omega)]

theorem stepTurn_messages (o : Oracles) (s : ConvState) :
    (stepTurn o s).messages = s.messages ∨
    ∃ r, (stepTurn o s).messages = s.messages ++ [⟨Role.ai, r⟩] := by
  rcases generate_response_messages o (retrieve_context o s) with hg | ⟨r, hg⟩
  · left
    calc (stepTurn o s).messages
        = (retrieve_context o s).messages := hg
      _ = s.messages := retrieve_context_messages o s
  · right
    refine ⟨r, ?_⟩
    have h1 : (stepTurn o s).messages
        = (retrieve_context o s).messages ++ [⟨Role.ai, r⟩] := hg
    rw [h1, retrieve_context_messages o s]

/-! ### Claims about the conversation state machine -/

/-- C4. When the pending question matches the personal-information pattern and
the fact `name` is stored in memory, the `retrieve` node sets the context to
the sentence synthesized from the stored name, leaves every other state field
unchanged (the result is exactly a context update of the input state), and
never consults the RAG/vector-store oracle: the result is the same for every
oracle. -/
theorem retrieve_short_circuit (o o' : Oracles) (s : ConvState) (q n : String)
    (hq : s.current_question = some q) (hq0 : q ≠ "")
    (hmatch : personalInfoMatch q = true)
    (hname : getVal s.memory "name" = some n) :
    retrieve_context o s =
      { s with context := some ("Personal information: The user\x27s name is "
          ++ n ++ ".") } ∧
    retrieve_context o s = retrieve_context o' s := by
  have hqb : (q == "") = false := by
    simp only [beq_eq_false_iff_ne, ne_eq]
    exact hq0
  have hcond : (personalInfoMatch q && (getVal s.memory "name").isSome) = true := by
    rw [hmatch, hname]
    rfl
  have hmain : ∀ o₀ : Oracles, retrieve_context o₀ s =
      { s with context := some ("Personal information: The user\x27s name is "
          ++ n ++ ".") } := by
    intro o₀
    unfold retrieve_context
    rw [hq]
    simp only [hqb, Bool.false_eq_true, if_neg, not_false_iff, hcond, if_pos]
    rw [hname]
    rfl
  exact ⟨hmain o, (hmain o).trans (hmain o').symm⟩

/-- Witness for C4: asking `who am i` with the name `Alex` stored. -/
theorem retrieve_short_circuit_witness :
    retrieve_context oracleConst
      ⟨[], none, some "who am i", false, [("name", "Alex")]⟩ =
    ⟨[], some "Personal information: The user\x27s name is Alex.",
      some "who am i", false, [("name", "Alex")]⟩ :=
  (retrieve_short_circuit oracleConst oracleEmptyCtx
    ⟨[], none, some "who am i", false, [("name", "Alex")]⟩
    "who am i" "Alex" rfl (by decide) (by decide) rfl).1

/-- C5. If the similarity search raises, `retrieve` swallows the error and
`get_relevant_context` returns the empty string; when the search returns
results, `get_relevant_context` is exactly the chunk texts joined with a
blank-line separator in rank order, and the empty string when nothing is
found. -/
theorem retrieval_degrades (search : String → Nat → SearchResult) (q : String)
    (k : Nat) :
    (search q k = .searchError → get_relevant_context search q k = "") ∧
    (∀ docs, search q k = .results docs →
        get_relevant_context search q k
          = String.intercalate "\n\n" (docs.map Doc.page_content)) ∧
    (search q k = .results [] → get_relevant_context search q k = "") := by
  refine ⟨?_, ?_, ?_⟩
  · intro h
    unfold get_relevant_context retrieve
    rw [h]
    rfl
  · intro docs h
    unfold get_relevant_context retrieve
    rw [h]
  · intro h
    unfold get_relevant_context retrieve
    rw [h]
    rfl

/-- Witness for C5: an erroring search yields `""`; a two-result search
yields the texts joined by a blank line. -/
theorem retrieval_degrades_witness :
    get_relevant_context (fun _ _ => .searchError) "q" 5 = "" ∧
    get_relevant_context (fun _ _ => .results [⟨"a", "s1"⟩, ⟨"b", "s2"⟩]) "q" 5
      = "a\n\nb" := by
  constructor
  · exact (retrieval_degrades (fun _ _ => .searchError) "q" 5).1 rfl
  · have h := (retrieval_degrades (fun _ _ => .results [⟨"a", "s1"⟩, ⟨"b", "s2"⟩])
      "q" 5).2.1 [⟨"a", "s1"⟩, ⟨"b", "s2"⟩] rfl
    rw [h]
    rfl

/-- C6 counterexample. The extracted `name` field `some ""` is neither null
nor the `"null"` marker, yet it does not overwrite the stored name `Alex`:
the claim that every non-null field overwrites the previous value is false
at this input (Python truthiness also rejects the empty string). -/
theorem extract_nonnull_field_not_overwriting :
    (some "" ≠ (none : Option String)) ∧
    some "" ≠ some "null" ∧
    extract_personal_info [("name", "Alex")] (.parsed (some "") none)
      = [("name", "Alex")] :=
  ⟨by decide, by decide, rfl⟩

/-- C6 amended. On parse failure memory is unchanged; a field that is null,
empty, or the literal string `"null"` never overwrites the existing memory
value for its key; any other field overwrites the previous value for its key
(last-write-wins). -/
theorem extract_personal_info_amended (memory : List (String × String)) :
    extract_personal_info memory .parseFailure = memory ∧
    (∀ nm oi, (nm = none ∨ nm = some "" ∨ nm = some "null") →
        getVal (extract_personal_info memory (.parsed nm oi)) "name"
          = getVal memory "name") ∧
    (∀ nm oi, (oi = none ∨ oi = some "" ∨ oi = some "null") →
        getVal (extract_personal_info memory (.parsed nm oi)) "other_info"
          = getVal memory "other_info") ∧
    (∀ s oi, s ≠ "" → s ≠ "null" →
        getVal (extract_personal_info memory (.parsed (some s) oi)) "name"
          = some s) ∧
    (∀ nm s, s ≠ "" → s ≠ "null" →
        getVal (extract_personal_info memory (.parsed nm (some s))) "other_info"
          = some s) := by
  have hne : ("name" : String) ≠ "other_info" := by decide
  have hne' : ("other_info" : String) ≠ "name" := by decide
  have hemp : ((("" : String) != "") && (("" : String) != "null")) = false := by decide
  have hnul : ((("null" : String) != "") && (("null" : String) != "null")) = false := by
    decide
  have hred : ∀ (m : List (String × String)) (nm oi : Option String),
      extract_personal_info m (.parsed nm oi) =
        (match oi with
         | some s => if s != "" && s != "null"
                     then setKey (match nm with
                       | some s' => if s' != "" && s' != "null" then setKey m "name" s'
                                    else m
                       | none => m) "other_info" s
                     else (match nm with
                       | some s' => if s' != "" && s' != "null" then setKey m "name" s'
                                    else m
                       | none => m)
         | none => (match nm with
                    | some s' => if s' != "" && s' != "null" then setKey m "name" s'
                                 else m
                    | none => m)) := by
    intro m nm oi
    cases nm <;> cases oi <;> rfl
  have hm1marker : ∀ (nm : Option String),
      (nm = none ∨ nm = some "" ∨ nm = some "null") →
      (match nm with
       | some s' => if s' != "" && s' != "null" then setKey memory "name" s'
                    else memory
       | none => memory) = memory := by
    intro nm hnm
    rcases hnm with rfl | rfl | rfl
    · rfl
    · simp [hemp]
    · simp [hnul]
  refine ⟨rfl, ?_, ?_, ?_, ?_⟩
  · intro nm oi hnm
    rw [hred, hm1marker nm hnm]
    cases oi with
    | none => rfl
    | some s' =>
        by_cases hc : (s' != "" && s' != "null") = true
        · simp only [hc, if_pos]
          exact getVal_setKey_ne memory "other_info" s' "name" hne'
        · simp only [Bool.not_eq_true] at hc
          simp [hc]
  · intro nm oi hoi
    rw [hred]
    rcases hoi with rfl | rfl | rfl
    · cases nm with
      | none => rfl
      | some t =>
          by_cases hct : (t != "" && t != "null") = true
          · simp only [hct, if_pos]
            exact getVal_setKey_ne memory "name" t "other_info" hne
          · simp only [Bool.not_eq_true] at hct
            simp [hct]
    · simp only [hemp, Bool.false_eq_true, if_neg, not_false_iff]
      cases nm with
      | none => rfl
      | some t =>
          by_cases hct : (t != "" && t != "null") = true
          · simp only [hct, if_pos]
            exact getVal_setKey_ne memory "name" t "other_info" hne
          · simp only [Bool.not_eq_true] at hct
            simp [hct]
    · simp only [hnul, Bool.false_eq_true, if_neg, not_false_iff]
      cases nm with
      | none => rfl
      | some t =>
          by_cases hct : (t != "" && t != "null") = true
          · simp only [hct, if_pos]
            exact getVal_setKey_ne memory "name" t "other_info" hne
          · simp only [Bool.not_eq_true] at hct
            simp [hct]
  · intro s oi hs1 hs2
    have hc : (s != "" && s != "null") = true := by
      simp only [Bool.and_eq_true, bne_iff_ne, ne_eq]
      exact ⟨hs1, hs2⟩
    rw [hred]
    cases oi with
    | none =>
        simp only [hc, if_pos]
        exact getVal_setKey_self memory "name" s
    | some t =>
        by_cases hct : (t != "" && t != "null") = true
        · simp only [hct, if_pos, hc]
          rw [getVal_setKey_ne _ "other_info" t "name" hne']
          exact getVal_setKey_self memory "name" s
        · simp only [Bool.not_eq_true] at hct
          simp only [hct, Bool.false_eq_true, if_neg, not_false_iff, hc, if_pos]
          exact getVal_setKey_self memory "name" s
  · intro nm s hs1 hs2
    have hc : (s != "" && s != "null") = true := by
      simp only [Bool.and_eq_true, bne_iff_ne, ne_eq]
      exact ⟨hs1, hs2⟩
    rw [hred]
    simp only [hc, if_pos]
    exact getVal_setKey_self _ "other_info" s

/-- Witness for the amended C6: the `"null"` marker leaves the stored name,
and a real name overwrites it. -/
theorem extract_personal_info_amended_witness :
    getVal (extract_personal_info [("name", "Alex")]
        (.parsed (some "null") none)) "name" = some "Alex" ∧
    getVal (extract_personal_info [("name", "Alex")]
        (.parsed (some "Bob") none)) "name" = some "Bob" := by
  constructor
  · have h := (extract_personal_info_amended [("name", "Alex")]).2.1
      (some "null") none (Or.inr (Or.inr rfl))
    rw [h]
    rfl
  · exact (extract_personal_info_amended [("name", "Alex")]).2.2.2.1
      "Bob" none (by decide) (by decide)

/-- C9 counterexample. With a RAG oracle that returns an empty context (a
falsy value under Python truthiness), `generate` takes its guard branch:
it sets the completion flag but does not clear the pending question — the
claim that generate always clears the pending question is false here. -/
theorem generate_keeps_question_on_empty_context :
    (stepTurn oracleEmptyCtx ⟨[], none, some "q", false, []⟩).current_question
      = some "q" ∧
    (stepTurn oracleEmptyCtx ⟨[], none, some "q", false, []⟩).completed = true :=
  ⟨rfl, rfl⟩

/-- C9 amended. Every `process_message`-style run of the graph terminates
after a single `retrieve` pass (hence at most two): `generate` always sets
the completion flag — and clears the pending question whenever it actually
generates a reply — so the termination predicate evaluated after `generate`
ends the loop. -/
theorem graph_single_pass (o : Oracles) (s : ConvState) (fuel : Nat)
    (h : 1 ≤ fuel) :
    runGraph o fuel s = (stepTurn o s, 1) ∧
    (runGraph o fuel s).2 ≤ 2 ∧
    (stepTurn o s).completed = true ∧
    should_end (stepTurn o s) = "end" ∧
    (∀ s', (generate_response o s').messages ≠ s'.messages →
        (generate_response o s').current_question = none) := by
  have h1 := runGraph_of_pos o fuel s h
  refine ⟨h1, ?_, stepTurn_completed o s,
    should_end_of_completed _ (stepTurn_completed o s),
    fun s' => generate_response_clears_question_of_generated o s'⟩
  rw [h1]
  show (1 : Nat) ≤ 2
  omega

/-- Witness for the amended C9 at a concrete oracle, state and budget. -/
theorem graph_single_pass_witness :
    runGraph oracleConst 1 initState = (stepTurn oracleConst initState, 1) :=
  (graph_single_pass oracleConst initState 1 (by omega)).1

theorem process_message_invariant (o : Oracles) (s : ConvState) (msg : String)
    (h : ∀ m ∈ s.messages, m.role ≠ Role.system) :
    (process_message o s msg).2.messages.length ≤ 11 ∧
    ∀ m ∈ (process_message o s msg).2.messages, m.role ≠ Role.system := by
  have happ : ∀ m ∈ s.messages ++ [(⟨Role.human, msg⟩ : Msg)],
      m.role ≠ Role.system := by
    intro m hm
    rcases List.mem_append.mp hm with hm | hm
    · exact h m hm
    · rw [List.mem_singleton.mp hm]
      intro hc
      exact Role.noConfusion hc
  have hplen : (prune_messages (s.messages ++ [⟨Role.human, msg⟩]) 10).length ≤ 10 :=
    prune_length_le_of_no_system _ happ
  have hpsys : ∀ m ∈ prune_messages (s.messages ++ [⟨Role.human, msg⟩]) 10,
      m.role ≠ Role.system := fun m hm => happ m (mem_of_mem_prune hm)
  have hres := process_message_result o s msg
  rcases stepTurn_messages o { s with
      messages := prune_messages (s.messages ++ [⟨Role.human, msg⟩]) 10,
      current_question := some msg, completed := false } with hg | ⟨r, hg⟩
  · constructor
    · rw [hres, hg]
      exact Nat.le_trans hplen (by omega)
    · intro m hm
      rw [hres, hg] at hm
      exact hpsys m hm
  · constructor
    · rw [hres, hg]
      have h1 : ([(⟨Role.ai, r⟩ : Msg)]).length = 1 := rfl
      have h2 : ((prune_messages (s.messages ++ [⟨Role.human, msg⟩]) 10)
          ++ [(⟨Role.ai, r⟩ : Msg)]).length ≤ 11 := by
        rw [List.length_append, h1]
        omega
      exact h2
    · intro m hm
      rw [hres, hg] at hm
      rcases List.mem_append.mp hm with hm | hm
      · exact hpsys m hm
      · rw [List.mem_singleton.mp hm]
        intro hc
        exact Role.noConfusion hc

theorem runTurns_invariant (o : Oracles) (inputs : List String) (s : ConvState)
    (h1 : ∀ m ∈ s.messages, m.role ≠ Role.system) (h2 : s.messages.length ≤ 11) :
    (∀ m ∈ (runTurns o inputs s).messages, m.role ≠ Role.system) ∧
    (runTurns o inputs s).messages.length ≤ 11 := by
  induction inputs generalizing s with
  | nil => exact ⟨h1, h2⟩
  | cons msg rest ih =>
      have hstep := process_message_invariant o s msg h1
      exact ih (process_message o s msg).2 hstep.2 hstep.1

/-- C3 counterexample. Eleven turns of `process_message` on the agent's
initial state (no system message ever present): the stored message count
settles at 11, because the assistant reply is appended after pruning — the
claimed bound of 10 is exceeded. -/
theorem pruning_bound_exceeded :
    (runTurns oracleConst (List.replicate 11 "hi") initState).messages.length = 11 ∧
    10 < (runTurns oracleConst (List.replicate 11 "hi") initState).messages.length ∧
    ((runTurns oracleConst (List.replicate 11 "hi") initState).messages.all
        (fun m => !(m.role == Role.system))) = true := by
  have h : (runTurns oracleConst (List.replicate 11 "hi") initState).messages.length
      = 11 := by rfl
  refine ⟨h, ?_, ?_⟩
  · rw [h]
    omega
  · rfl

/-- C3 amended. Pruning before each turn trims messages longer than the
bound to exactly the most recent 10 (preserving a leading system message, in
which case 11 remain), and over any sequence of turns from the agent's
initial state the stored message count never exceeds 11 — the 10 retained by
pruning plus the assistant reply appended after pruning. -/
theorem pruning_and_history_bound :
    (∀ msgs : List Msg, (prune_messages msgs 10).length ≤ 11) ∧
    (∀ msgs : List Msg, (∀ m ∈ msgs, m.role ≠ Role.system) →
        (prune_messages msgs 10).length ≤ 10) ∧
    (∀ (m : Msg) (rest : List Msg), 10 < (m :: rest).length →
        (m.role == Role.system) = false →
        prune_messages (m :: rest) 10 = lastN 10 (m :: rest)) ∧
    (∀ (m : Msg) (rest : List Msg), 10 < (m :: rest).length →
        (m.role == Role.system) = true →
        prune_messages (m :: rest) 10 = m :: lastN 10 rest) ∧
    (∀ (o : Oracles) (inputs : List String),
        (runTurns o inputs initState).messages.length ≤ 11) := by
  refine ⟨prune_length_le, prune_length_le_of_no_system, ?_, ?_, ?_⟩
  · intro m rest hlen hsys
    unfold prune_messages
    have hn : ¬((m :: rest).length ≤ 10) := by omega
    simp only [hn, if_neg, not_false_iff, hsys, Bool.false_eq_true]
  · intro m rest hlen hsys
    unfold prune_messages
    have hn : ¬((m :: rest).length ≤ 10) := by omega
    simp only [hn, if_neg, not_false_iff, hsys, if_pos]
  · intro o inputs
    refine (runTurns_invariant o inputs initState ?_ ?_).2
    · intro m hm
      exact absurd hm (List.not_mem_nil m)
    · show (0 : Nat) ≤ 11
      omega

/-- Witness for the amended C3 after one concrete turn. -/
theorem pruning_and_history_bound_witness :
    (runTurns oracleConst ["a"] initState).messages.length ≤ 11 :=
  pruning_and_history_bound.2.2.2.2 oracleConst ["a"]

theorem stepTurn_empty_question (o : Oracles) (s : ConvState)
    (h : s.current_question = some "") :
    stepTurn o s = { s with completed := true } := by
  obtain ⟨msgs, ctx, q, comp, mem⟩ := s
  simp only at h
  subst h
  cases ctx <;> rfl

/-- C10. On an empty user message the pending question is falsy, so both
graph nodes terminate immediately: no retrieval or generation is invoked
(the result is independent of the oracles), no assistant message is
appended, and `process_message` returns the content of the last stored
message — the just-appended (pruned-in) empty user message itself. -/
theorem process_message_empty_input (o o' : Oracles) (s : ConvState) :
    process_message o s "" = process_message o' s "" ∧
    (process_message o s "").2.messages
      = prune_messages (s.messages ++ [⟨Role.human, ""⟩]) 10 ∧
    (process_message o s "").2.messages.getLast? = some ⟨Role.human, ""⟩ ∧
    (process_message o s "").1 = "" := by
  have hres : ∀ o₀ : Oracles, (process_message o₀ s "").2 =
      { s with messages := prune_messages (s.messages ++ [⟨Role.human, ""⟩]) 10,
               current_question := some "", completed := true } := by
    intro o₀
    rw [process_message_result o₀ s ""]
    rw [stepTurn_empty_question o₀ _ rfl]
  have hlast : (prune_messages (s.messages ++ [⟨Role.human, ""⟩]) 10).getLast?
      = some ⟨Role.human, ""⟩ := by
    rw [prune_getLast? _ (by simp), List.getLast?_concat]
  have hmsgs : ∀ o₀ : Oracles, (process_message o₀ s "").2.messages
      = prune_messages (s.messages ++ [⟨Role.human, ""⟩]) 10 := by
    intro o₀
    rw [hres o₀]
  have hfst : ∀ o₀ : Oracles, (process_message o₀ s "").1 = "" := by
    intro o₀
    have h1 : (process_message o₀ s "").1 =
        (((process_message o₀ s "").2.messages.getLast?).map Msg.content).getD "" := rfl
    rw [h1, hmsgs o₀, hlast]
    rfl
  have hpair : ∀ o₀ : Oracles, process_message o₀ s "" =
      ("", { s with
        messages := prune_messages (s.messages ++ [⟨Role.human, ""⟩]) 10,
        current_question := some "", completed := true }) := by
    intro o₀
    exact Prod.ext (hfst o₀) (hres o₀)
  refine ⟨(hpair o).trans (hpair o').symm, hmsgs o, ?_, hfst o⟩
  rw [hmsgs o]
  exact hlast

end PKA
